import Mathlib

/-!
Verification of the Krakken-AI assistant core against its specification.

The development shallowly embeds the relevant parts of the source:
  * `src/Backend/Model.py` — the rule-based intent classifier
    (`classify_query`, `FirstLayerDMM`), including faithful models of the
    Python string operations (`lower`, `strip`, `split`, `re.sub`,
    `re.split`, `re.search`, `re.match`) restricted to the ASCII range.
  * `src/Backend/Automation.py` — the dispatch loop of `main` and the
    action parsing of `handle_action`.
  * `src/Backend/TextToSpeech.py` — the `TTS` controller and `play_audio`
    cleanup, as a state-machine step on the module-level state
    (`tts_is_playing`, `playback_thread`).
  * `src/Backend/Chatbot.py` / `src/Backend/RealtimeSearchEngine.py` —
    `ChatBot` and `RealtimeSearchEngine`, with the backend call and the
    chat-history load modelled as `Except`-valued inputs.
-/

namespace Krakken

/-! ## Python string primitives (ASCII model)

`isSpaceChar` models Python's `str.split()` / `str.strip()` / regex `\s`
whitespace class; `isWordChar` models the regex `\w` class used in
`re.sub(r"[^\w\s]", "", q)`; `toLowerCh` models `str.lower()`. -/

def isSpaceChar (c : Char) : Bool :=
  decide (c.toNat = 32 ∨ c.toNat = 9 ∨ c.toNat = 10 ∨ c.toNat = 13 ∨
          c.toNat = 11 ∨ c.toNat = 12)

def isWordChar (c : Char) : Bool :=
  decide ((97 ≤ c.toNat ∧ c.toNat ≤ 122) ∨ (65 ≤ c.toNat ∧ c.toNat ≤ 90) ∨
          (48 ≤ c.toNat ∧ c.toNat ≤ 57) ∨ c.toNat = 95)

/-- Upper-case ASCII letter (Python `str.isupper` on one character). -/
def isUpperCh (c : Char) : Bool := decide (65 ≤ c.toNat ∧ c.toNat ≤ 90)

def toLowerCh (c : Char) : Char :=
  if 65 ≤ c.toNat ∧ c.toNat ≤ 90 then Char.ofNat (c.toNat + 32) else c

/-- Python `s.lower()`. -/
def lowerChars (l : List Char) : List Char := l.map toLowerCh

/-- Python `s.strip()`. -/
def stripChars (l : List Char) : List Char :=
  ((l.dropWhile isSpaceChar).reverse.dropWhile isSpaceChar).reverse

/-- Python `re.sub(r"[^\w\s]", "", s)`: delete every character that is
neither a word character nor whitespace. -/
def removePunct (l : List Char) : List Char :=
  l.filter (fun c => isWordChar c || isSpaceChar c)

/-- Accumulator for `splitWs` (Python `s.split()` with no argument):
skip whitespace, collect maximal non-whitespace words. -/
def splitWsAux : List Char → List Char → List (List Char)
  | cur, [] => if cur.isEmpty then [] else [cur.reverse]
  | cur, c :: rest =>
    if isSpaceChar c then
      if cur.isEmpty then splitWsAux [] rest else cur.reverse :: splitWsAux [] rest
    else splitWsAux (c :: cur) rest

/-- Python `s.split()` (whitespace split, empty words discarded). -/
def splitWs (l : List Char) : List (List Char) := splitWsAux [] l

/-- Python `s.split(',')` (every comma is a separator, empties kept). -/
def splitComma : List Char → List (List Char)
  | [] => [[]]
  | c :: rest =>
    if c == ',' then [] :: splitComma rest
    else
      match splitComma rest with
      | [] => [[c]]
      | t :: ts => (c :: t) :: ts

/-- Python `pat in s` substring containment. -/
def containsSub (pat : List Char) : List Char → Bool
  | [] => pat.isEmpty
  | c :: rest => List.isPrefixOf pat (c :: rest) || containsSub pat rest

/-! ## Model.py: settings -/

def CATEGORIES : List (List Char) :=
  ["general".data, "realtime".data, "open".data, "close".data, "play".data,
   "generate image".data, "system".data, "content".data, "google search".data,
   "youtube search".data, "reminder".data, "exit".data]

def EXIT_PHRASES : List (List Char) :=
  ["bye".data, "exit".data, "quit".data, "goodbye".data, "end".data]

def REALTIME_KEYWORDS : List (List Char) :=
  ["news".data, "weather".data, "update".data, "current".data, "latest".data,
   "recent".data, "headline".data, "now".data, "live".data, "score".data,
   "trending".data, "breaking".data, "forecast".data, "stock".data,
   "price".data, "exchange rate".data, "covid".data, "coronavirus".data,
   "today\x27s news".data, "todays news".data, "today\x27s headline".data,
   "todays headline".data, "today\x27s weather".data, "todays weather".data,
   "result".data, "results".data, "match".data, "game".data, "event".data,
   "happening".data, "going on".data]

def DATE_TIME_KEYWORDS : List (List Char) :=
  ["date".data, "time".data, "day".data, "month".data, "year".data]

/-! ## Model.py: classify_query -/

/-- `any(phrase in q_nopunct.split() for phrase in EXIT_PHRASES)`. -/
def hasExitWord (qn : List Char) : Bool :=
  EXIT_PHRASES.any (fun p => (splitWs qn).contains p)

/-- One attempt of the separator regex `\s*,\s*|\s+and\s+` (used by
`re.split` in the multi-action branch) at the head of `l`: returns the
length of the (greedy, leftmost-alternative) match, if any.  The first
alternative matches a comma with optional surrounding whitespace, the
second the word `and` with mandatory surrounding whitespace. -/
def matchSep (l : List Char) : Option Nat :=
  let k := (l.takeWhile isSpaceChar).length
  let r := l.dropWhile isSpaceChar
  if r.headD 'x' == ',' then
    some (k + 1 + ((r.drop 1).takeWhile isSpaceChar).length)
  else if 1 ≤ k ∧ List.isPrefixOf "and".data r ∧
          isSpaceChar ((r.drop 3).headD 'x') = true then
    some (k + 3 + ((r.drop 3).takeWhile isSpaceChar).length)
  else none

/-- Scan of `re.split(r"\s*,\s*|\s+and\s+", s)`: at each position try the
separator; on a match emit the token collected so far and skip the match.
The fuel argument (initially the list length, always sufficient since
every step consumes at least one character) keeps the recursion
structural. -/
def reSplitSepAux : Nat → List Char → List Char → List (List Char)
  | _, acc, [] => [acc.reverse]
  | 0, acc, l => [acc.reverse ++ l]
  | fuel + 1, acc, c :: rest =>
    match matchSep (c :: rest) with
    | some n => acc.reverse :: reSplitSepAux fuel [] (rest.drop (n - 1))
    | none => reSplitSepAux fuel (c :: acc) rest

/-- `re.split(r"\s*,\s*|\s+and\s+", s)`. -/
def reSplitSep (l : List Char) : List (List Char) := reSplitSepAux l.length [] l

/-- Python `", ".join(xs)`. -/
def joinCommaSpace : List (List Char) → List Char
  | [] => []
  | [x] => x
  | x :: y :: rest => x ++ ',' :: ' ' :: joinCommaSpace (y :: rest)

/-- The multi-action branch of `classify_query`:
`items = re.split(r"\s*,\s*|\s+and\s+", query[len(act):].strip())`,
`actions = [f"{act} {item.strip()}" for item in items if item.strip()]`,
`return ", ".join(actions)`. -/
def multiAction (act : List Char) (query : List Char) : List Char :=
  let items := reSplitSep (stripChars (query.drop act.length))
  let actions := (items.filter (fun it => !(stripChars it).isEmpty)).map
    (fun it => act ++ ' ' :: stripChars it)
  joinCommaSpace actions

/-- `w` ends in at least one whitespace character immediately followed
by the word `and`.  Such a trailing edge completes a `\s+and\s+`
separator match together with whitespace that follows `w` in a larger
scanned text; the predicate is used to state the side conditions of the
multi-item batch theorem. -/
def endsSpaceAnd (w : List Char) : Bool :=
  match w.reverse with
  | 'd' :: 'n' :: 'a' :: c :: _ => isSpaceChar c
  | _ => false

/-- One attempt of `remind(?:er)?(?: me)?(?: on| at)?\s*(.*)` (with
`re.IGNORECASE`) at the head of `l`; returns group 1.  Each optional
group is taken greedily; no backtracking is ever needed because the
trailing `(.*)` always matches.  `.` does not match a newline. -/
def matchRemindAt (l : List Char) : Option (List Char) :=
  if lowerChars (l.take 6) == "remind".data then
    let r1 := l.drop 6
    let r2 := if lowerChars (r1.take 2) == "er".data then r1.drop 2 else r1
    let r3 := if lowerChars (r2.take 3) == " me".data then r2.drop 3 else r2
    let r4 := if lowerChars (r3.take 3) == " on".data then r3.drop 3
              else if lowerChars (r3.take 3) == " at".data then r3.drop 3 else r3
    some ((r4.dropWhile isSpaceChar).takeWhile (fun c => !(c == '\n')))
  else none

/-- `re.search` of the reminder pattern: leftmost match. -/
def searchRemind : List Char → Option (List Char)
  | [] => none
  | c :: rest =>
    match matchRemindAt (c :: rest) with
    | some g => some g
    | none => searchRemind rest

/-- The reminder branch of `classify_query`:
`arg = m.group(1).strip() if m and m.group(1).strip() else query`,
`return f'reminder {arg}'`. -/
def reminderResult (query : List Char) : List Char :=
  match searchRemind query with
  | some g =>
    let arg := stripChars g
    if arg.isEmpty then "reminder ".data ++ query else "reminder ".data ++ arg
  | none => "reminder ".data ++ query

/-- Tail of the entity patterns: `([^?]+)\??$` — at least one
non-question-mark character, optionally a final question mark. -/
def matchEntityTail (y : List Char) : Option (List Char) :=
  let a := y.takeWhile (fun c => !(c == '?'))
  let rest := y.drop a.length
  if a.isEmpty then none
  else if rest.isEmpty || rest == ['?'] then some a else none

/-- `re.match` over the two entity patterns
`^(who|what) is ([^?]+)\??$` and
`^(tell me about|information about) ([^?]+)\??$`, in source order;
returns group 2 of the first pattern that matches. -/
def entityMatch (qn : List Char) : Option (List Char) :=
  if List.isPrefixOf "who is ".data qn then matchEntityTail (qn.drop 7)
  else if List.isPrefixOf "what is ".data qn then matchEntityTail (qn.drop 8)
  else if List.isPrefixOf "tell me about ".data qn then matchEntityTail (qn.drop 14)
  else if List.isPrefixOf "information about ".data qn then matchEntityTail (qn.drop 18)
  else none

/-- The entity branch of `classify_query`: if a pattern matched, decide
realtime (`some true`) versus general (`some false`) by
`len(subject.split()) > 1 or any(w[0].isupper() for w in subject.split() if w)`. -/
def entityDecision (qn : List Char) : Option Bool :=
  match entityMatch qn with
  | none => none
  | some subject =>
    let ws := splitWs (stripChars subject)
    some (decide (1 < ws.length) ||
          ws.any (fun w => !w.isEmpty && isUpperCh (w.headD ' ')))

/-- Body of `classify_query` with the normalised, punctuation-free text
`qn` passed explicitly (`q_nopunct` in the source). -/
def classifyWith (query qn : List Char) : List Char :=
  if hasExitWord qn then "exit".data
  else if List.isPrefixOf "google ".data qn then
    "google search ".data ++ stripChars (query.drop 7)
  else if List.isPrefixOf "search google for ".data qn then
    "google search ".data ++ stripChars (query.drop 17)
  else if List.isPrefixOf "youtube ".data qn then
    "youtube search ".data ++ stripChars (query.drop 8)
  else if List.isPrefixOf "search youtube for ".data qn then
    "youtube search ".data ++ stripChars (query.drop 18)
  else if List.isPrefixOf "open ".data qn then multiAction "open".data query
  else if List.isPrefixOf "close ".data qn then multiAction "close".data query
  else if List.isPrefixOf "play ".data qn then multiAction "play".data query
  else if List.isPrefixOf "system ".data qn then multiAction "system".data query
  else if containsSub "remind".data qn || containsSub "reminder".data qn then
    reminderResult query
  else if REALTIME_KEYWORDS.any (fun w => containsSub w qn) then
    "realtime ".data ++ query
  else
    match entityDecision qn with
    | some true => "realtime ".data ++ query
    | some false => "general ".data ++ query
    | none =>
      if DATE_TIME_KEYWORDS.any (fun w => containsSub w qn) then
        "general ".data ++ query
      else "general ".data ++ query

/-- `classify_query` of `Model.py`: normalise
(`q = query.lower().strip()`, `q_nopunct = re.sub(r"[^\w\s]", "", q)`)
and run the rule chain. -/
def classifyQuery (query : List Char) : List Char :=
  classifyWith query (removePunct (stripChars (lowerChars query)))

/-- `FirstLayerDMM` of `Model.py` on the character-list level:
`[r.strip() for r in classify_query(query).split(',')]`. -/
def firstLayerDMM (query : List Char) : List (List Char) :=
  (splitComma (classifyQuery query)).map stripChars

/-- `FirstLayerDMM` of `Model.py`. -/
def FirstLayerDMM (s : String) : List String :=
  (firstLayerDMM s.data).map (fun l => String.mk l)

/-! ## Automation.py: action parsing and the dispatch loop

`handle_action` first decomposes the action string
(`action = action.strip()`, `parts = action.split()`,
`keyword = parts[0].lower()`,
`tail = action[len(parts[0]):].strip() if len(action) > len(parts[0]) else ""`).
`parseAction` models that decomposition; the `[]` case corresponds to the
source's early `return None` when no parts exist. -/

def parseAction (action : List Char) : List Char × List Char :=
  let a := stripChars action
  match splitWs a with
  | [] => ([], [])
  | w :: _ => (lowerChars w, stripChars (a.drop w.length))

/-- What a handler invocation can do, seen from the dispatch loop of
`main`: return a value (`handle_action` returns a response string or
`None`), or raise an uncaught exception. -/
inductive HandlerOutcome where
  | ret : Option String → HandlerOutcome
  | raises : String → HandlerOutcome
deriving DecidableEq

/-- Per-segment outcome recorded by the batch model: `handle_action`
returning a string is a success, returning `None` is a `Failure`,
returning `"EXIT"` is the `Halt`, and an uncaught exception is recorded
as `raisedR`. -/
inductive SegOutcome where
  | success : String → SegOutcome
  | failure : SegOutcome
  | haltR : SegOutcome
  | raisedR : String → SegOutcome
deriving DecidableEq

/-- How the batch of one utterance ended in `main`'s loop:
all segments processed (`completed`), `"EXIT"` observed (`halted`, the
loop raises `KeyboardInterrupt`), or an exception escaped a handler
(`aborted`, caught only by the outer `except Exception` of the session
loop). -/
inductive BatchStop where
  | completed : BatchStop
  | halted : BatchStop
  | aborted : String → BatchStop
deriving DecidableEq

/-- Python `s.strip()` on `String`. -/
def stripStr (s : String) : String := String.mk (stripChars s.data)

/-- The `for act in decisions:` loop of `main`
(`src/Backend/Automation.py`, lines 341–349), parametrised by the
handler.  Each act is stripped, empty acts are skipped, and there is no
`try/except` inside the loop: a raising handler ends the batch at once. -/
def runBatch (handler : String → HandlerOutcome) :
    List String → List (String × SegOutcome) × BatchStop
  | [] => ([], .completed)
  | act :: rest =>
    let a := stripStr act
    if a = "" then runBatch handler rest
    else
      match handler a with
      | .raises e => ([(a, .raisedR e)], .aborted e)
      | .ret none =>
        let r := runBatch handler rest
        ((a, .failure) :: r.1, r.2)
      | .ret (some s) =>
        if s = "EXIT" then ([(a, .haltR)], .halted)
        else
          let r := runBatch handler rest
          ((a, .success s) :: r.1, r.2)

/-! ## TextToSpeech.py: the speech-output controller

`play_audio`'s `finally` block runs unconditionally after the playback
attempt (natural end, cancellation via the stop event, or an error in
the `try` body): it unloads the mixer music if the mixer is initialised,
deletes the file if it exists, and invokes `on_complete` if provided. -/

structure PlayEffects where
  unloaded : Bool
  deleted : Bool
  onCompleteCalled : Bool
deriving DecidableEq

/-- The cleanup performed by `play_audio` (`src/Backend/TextToSpeech.py`,
lines 40–53), given whether the mixer is initialised, whether the file
exists and whether an `on_complete` callback was passed. -/
def play_audio_cleanup (mixerInited fileExists onCompletePresent : Bool) :
    PlayEffects :=
  { unloaded := mixerInited
    deleted := fileExists
    onCompleteCalled := onCompletePresent }

/-- Result of a `TTS` call: `False` on the busy fast path, `False` on a
synthesis error, `True` once the started playback thread has died. -/
inductive SubmitOutcome where
  | busyReject : SubmitOutcome
  | synthFailed : SubmitOutcome
  | completed : SubmitOutcome
deriving DecidableEq

/-- The module-level mutable state read and written by `TTS`:
`tts_is_playing` (the reentrancy flag) and whether `playback_thread`
refers to a live thread. -/
structure ControllerState where
  ttsIsPlaying : Bool
  threadAlive : Bool
deriving DecidableEq

/-- Observable trace of one `TTS` call. -/
structure SubmitTrace where
  outcome : SubmitOutcome
  final : ControllerState
  priorStopSignalled : Bool
  priorJoined : Bool
  play : Option PlayEffects
deriving DecidableEq

/-- One `TTS(text, func, on_complete)` call
(`src/Backend/TextToSpeech.py`, lines 55–90) as a step on the controller
state.

* If `tts_is_playing` is set the call returns `False` immediately:
  nothing is stopped, joined, synthesised or played.
* Otherwise the flag is set; if `playback_thread` is alive its stop
  event is set and the thread joined.  Synthesis failure returns `False`
  (the `finally` clears the flag; no playback, no cleanup of the new
  artifact path by `TTS` itself).  Otherwise `play_audio` runs on a new
  thread which `TTS` waits out (the polling loop with `func`, or the
  explicit `join` after `func()` returns `False`), so at return the
  thread is dead, the `finally` of `play_audio` has run on the freshly
  written file, and the flag is cleared. -/
def TTS_submit (st : ControllerState)
    (synthOk mixerInited onCompletePresent : Bool) : SubmitTrace :=
  if st.ttsIsPlaying then
    { outcome := .busyReject, final := st
      priorStopSignalled := false, priorJoined := false, play := none }
  else if !synthOk then
    { outcome := .synthFailed
      final := { ttsIsPlaying := false, threadAlive := false }
      priorStopSignalled := st.threadAlive, priorJoined := st.threadAlive
      play := none }
  else
    { outcome := .completed
      final := { ttsIsPlaying := false, threadAlive := false }
      priorStopSignalled := st.threadAlive, priorJoined := st.threadAlive
      play := some (play_audio_cleanup mixerInited true onCompletePresent) }

/-! ## Chatbot.py and RealtimeSearchEngine.py

Both functions are modelled with the two effectful steps that decide
their control flow passed in as `Except`-valued inputs: the chat-history
load (`load_chat_history`) and the backend completion call.  A value
`.error e` models the Python operation raising. -/

structure Msg where
  role : String
  content : String
deriving DecidableEq

/-- `str.replace("</s>", "")`, leftmost non-overlapping occurrences. -/
def removeEndTag : List Char → List Char
  | '<' :: '/' :: 's' :: '>' :: rest => removeEndTag rest
  | c :: rest => c :: removeEndTag rest
  | [] => []

/-- Python `s.split('\n')`. -/
def splitNewline : List Char → List (List Char)
  | [] => [[]]
  | c :: rest =>
    if c == '\n' then [] :: splitNewline rest
    else
      match splitNewline rest with
      | [] => [[c]]
      | t :: ts => (c :: t) :: ts

/-- Python `"\n".join(xs)`. -/
def joinNewline : List (List Char) → List Char
  | [] => []
  | [x] => x
  | x :: y :: rest => x ++ '\n' :: joinNewline (y :: rest)

/-- `clean_response` of `Chatbot.py`: drop the lines that are blank
after stripping. -/
def cleanResponseChat (answer : String) : String :=
  String.mk (joinNewline ((splitNewline answer.data).filter
    (fun line => !(stripChars line).isEmpty)))

def rtDebugLinePatterns : List (List Char) :=
  ["err:".data, "[".data, "warning:".data, "api request failed".data,
   "image not found".data, "successfully generated".data, "no images".data,
   "failed to generate".data, "error:".data]

/-- `clean_response` of `RealtimeSearchEngine.py`: additionally drop
lines whose lower-cased text starts with one of the debug markers. -/
def cleanResponseRt (answer : String) : String :=
  String.mk (joinNewline ((splitNewline answer.data).filter
    (fun line => !(stripChars line).isEmpty &&
      !(rtDebugLinePatterns.any
        (fun p => List.isPrefixOf p (lowerChars line))))))

def chatBotFallback : String :=
  "I\x27m experiencing technical difficulties. Please try again."

def chatBotEmptyAnswer : String :=
  "Sorry, I couldn\x27t generate a response. Please try again."

/-- `ChatBot` of `Chatbot.py` (lines 132–179).  Its
`load_chat_history` catches every exception and returns `[]`, so the
history-load input never escapes; the completion call and the streaming
loop sit inside `try`, whose `except` returns the fixed fallback.  On
success the streamed answer is post-processed
(`answer.replace("</s>", "").strip()`, empty-answer substitution,
`clean_response`). -/
def ChatBot_model (histLoad : Except String (List Msg))
    (apiResult : Except String String) : Except String String :=
  match histLoad, apiResult with
  | _, .error _ => .ok chatBotFallback
  | _, .ok ansRaw =>
    let answer := stripStr (String.mk (removeEndTag ansRaw.data))
    let answer := if answer = "" then chatBotEmptyAnswer else answer
    .ok (cleanResponseChat answer)

def rtFallback : String :=
  "I\x27m experiencing technical difficulties. Please try again later."

def rtEmptyAnswer : String :=
  "I apologize, but I couldn\x27t generate a response. Please try again."

/-- `RealtimeSearchEngine` of `RealtimeSearchEngine.py` (lines 100–125).
Its `load_chat_history` (lines 34–42) has no exception handler, so a
failing history load propagates out of the function; `GoogleSearch` and
`get_realtime_info` are total (own `try/except`) and do not affect the
returned value's shape.  The completion call sits inside `try` with the
fixed fallback; on success `content or <apology>` is cleaned. -/
def RealtimeSearchEngine_model (histLoad : Except String (List Msg))
    (apiContent : Except String (Option String)) : Except String String :=
  match histLoad with
  | .error e => .error e
  | .ok _ =>
    match apiContent with
    | .error _ => .ok rtFallback
    | .ok content => .ok (cleanResponseRt (content.getD rtEmptyAnswer))

/-! ## Claim C1 — speech-output supersession -/

/-- C1 (counterexample): submitting request B while request A's playback
is still active (the controller call for A holds `tts_is_playing` for
the whole of A's playback) is **not** a supersession: B's `TTS` call
returns `False` on the busy fast path, A's stop event is not set, no
join happens, and A's playback and artifact are untouched. -/
theorem c1_busy_counterexample :
    TTS_submit { ttsIsPlaying := true, threadAlive := true } true true true =
      { outcome := .busyReject
        final := { ttsIsPlaying := true, threadAlive := true }
        priorStopSignalled := false, priorJoined := false, play := none } := by
  decide

/-- C1 (amended): while `tts_is_playing` is set, a `TTS` call is a
busy-reject — no stop signal, no join, state unchanged.  The
stop-and-join supersession branch runs only when the flag is clear but
a previous playback thread is still alive. -/
theorem c1_submit_semantics (t sy mi oc : Bool) :
    ((TTS_submit { ttsIsPlaying := true, threadAlive := t } sy mi oc).outcome
        = .busyReject ∧
     (TTS_submit { ttsIsPlaying := true, threadAlive := t } sy mi oc).priorStopSignalled
        = false ∧
     (TTS_submit { ttsIsPlaying := true, threadAlive := t } sy mi oc).final
        = { ttsIsPlaying := true, threadAlive := t }) ∧
    ((TTS_submit { ttsIsPlaying := false, threadAlive := true } sy mi oc).priorStopSignalled
        = true ∧
     (TTS_submit { ttsIsPlaying := false, threadAlive := true } sy mi oc).priorJoined
        = true) := by
  cases sy <;> simp [TTS_submit]

/-! ## Claim C8 — guaranteed cleanup after submit -/

/-- C8 (counterexample): a request that is accepted (controller idle)
but whose synthesis step fails returns `False` with no playback: the
`on_complete` callback — although present — is never invoked, and `TTS`
performs no unload or artifact deletion on this path. -/
theorem c8_cleanup_counterexample :
    TTS_submit { ttsIsPlaying := false, threadAlive := false } false true true =
      { outcome := .synthFailed
        final := { ttsIsPlaying := false, threadAlive := false }
        priorStopSignalled := false, priorJoined := false, play := none } := by
  decide

/-- C8 (amended): when a request is accepted and synthesis succeeds, the
playback thread runs `play_audio`, and by the time `TTS` returns its
`finally` block has unloaded the mixer resource (if the mixer is
initialised), deleted the artifact, and invoked `on_complete` if
present, with the controller back to idle; busy-rejected requests and
synthesis failures never start playback and trigger none of the three
cleanup actions. -/
theorem c8_cleanup_on_playback (t mi oc sy : Bool) :
    ((TTS_submit { ttsIsPlaying := false, threadAlive := t } true mi oc).play
        = some (play_audio_cleanup mi true oc) ∧
     (TTS_submit { ttsIsPlaying := false, threadAlive := t } true mi oc).outcome
        = .completed ∧
     (TTS_submit { ttsIsPlaying := false, threadAlive := t } true mi oc).final
        = { ttsIsPlaying := false, threadAlive := false }) ∧
    (TTS_submit { ttsIsPlaying := true, threadAlive := t } sy mi oc).play = none ∧
    (TTS_submit { ttsIsPlaying := false, threadAlive := t } false mi oc).play
        = none := by
  cases sy <;> simp [TTS_submit]

/-! ## Claim C2 — batch dispatch tolerance -/

/-- C2 (counterexample): in the dispatch loop of `main` a 3-segment
batch whose second handler raises does **not** execute segment 3: the
exception escapes the `for` loop (there is no per-segment
`try/except`), only two segments run, and the batch ends `aborted`. -/
theorem c2_raise_aborts_batch_counterexample :
    runBatch
      (fun a => if a = "s2" then .raises "RuntimeError"
                else .ret (some ("ok " ++ a)))
      ["s1", "s2", "s3"] =
    ([("s1", .success "ok s1"), ("s2", .raisedR "RuntimeError")],
      .aborted "RuntimeError") := by
  decide

/-- C2 (amended): segments execute strictly in order and a `Failure`
(`handle_action` returning `None`) never halts the batch — if no handler
raises and none returns `"EXIT"`, every non-empty stripped segment is
executed and the batch completes.  But an unexpected exception inside a
handler is *not* converted to a `Failure` at the dispatcher boundary:
it aborts the batch at that segment and the remaining siblings are
skipped. -/
theorem c2_batch_tolerance :
    (∀ (h : String → HandlerOutcome) (acts : List String),
      (∀ a e₀, h a ≠ .raises e₀) →
      (∀ a, h a ≠ .ret (some "EXIT")) →
      (runBatch h acts).2 = .completed ∧
      (runBatch h acts).1.map Prod.fst =
        (acts.map stripStr).filter (fun a => decide (a ≠ ""))) ∧
    (∀ (h : String → HandlerOutcome) (act : String) (rest : List String)
      (e : String),
      stripStr act ≠ "" →
      h (stripStr act) = .raises e →
      runBatch h (act :: rest) =
        ([(stripStr act, .raisedR e)], .aborted e)) := by
  constructor
  · intro h acts hnoraise hnoexit
    induction acts with
    | nil => simp [runBatch]
    | cons a as ih =>
      by_cases ha : stripStr a = ""
      · simpa [runBatch, ha] using ih
      · rcases hr : h (stripStr a) with r | e₀
        · rcases r with _ | s
          · simp [runBatch, ha, hr, ih]
          · have hs : s ≠ "EXIT" := by
              intro hEq; exact hnoexit (stripStr a) (hEq ▸ hr)
            simp [runBatch, ha, hr, hs, ih]
        · exact absurd hr (hnoraise _ _)
  · intro h act rest e hne hraise
    simp [runBatch, hne, hraise]

/-- C2 witness: the amended batch theorem at concrete handlers and
batches — an all-`Failure` handler still completes a batch, and a
raising head segment aborts the tail. -/
theorem c2_batch_tolerance_witness :
    ((runBatch (fun _ => .ret none) ["s1", " ", "s2"]).2 = .completed ∧
     (runBatch (fun _ => .ret none) ["s1", " ", "s2"]).1.map Prod.fst =
       ((["s1", " ", "s2"].map stripStr).filter (fun a => decide (a ≠ "")))) ∧
    runBatch (fun a => if a = "s9" then .raises "boom" else .ret none)
      ["s9", "s10"] = ([("s9", .raisedR "boom")], .aborted "boom") := by
  refine ⟨c2_batch_tolerance.1 (fun _ => .ret none) ["s1", " ", "s2"]
      (by intro a e₀ hc; cases hc) (by intro a hc; cases hc),
    ?_⟩
  have h2 := c2_batch_tolerance.2
    (fun a => if a = "s9" then .raises "boom" else .ret none)
    "s9" ["s10"] "boom" (by decide) (by decide)
  simpa using h2

/-! ## Claim C6 — reminder extraction -/

/-- C6 (counterexample): classifying `"remind me at 5pm call mom"`
yields neither a segment with argument `"at 5pm call mom"` nor one with
argument `"call mom"` — the claim's two admissible outcomes are both
wrong on the code. -/
theorem c6_reminder_counterexample :
    FirstLayerDMM "remind me at 5pm call mom" ≠ ["reminder at 5pm call mom"] ∧
    FirstLayerDMM "remind me at 5pm call mom" ≠ ["reminder call mom"] := by
  decide

/-- C6 (amended): classifying `"remind me at 5pm call mom"` yields
exactly one segment tagged `Reminder` with argument `"5pm call mom"`:
the extraction regex consumes `remind`, the optional `" me"` qualifier,
the optional `" at"` qualifier and the following whitespace, so the word
`at` is stripped while the time phrase after it is kept. -/
theorem c6_reminder_extraction :
    FirstLayerDMM "remind me at 5pm call mom" = ["reminder 5pm call mom"] := by
  decide

/-! ## Claim C7 — google-search segment and its dispatch decomposition -/

/-- C7 (counterexample): the dispatch pipeline (`handle_action`) splits
an action at its first whitespace token, so for the classifier output
`"google search who won the cricket match"` the decomposed keyword is
`"google"` and the decomposed argument is
`"search who won the cricket match"`, not `"who won the cricket match"`
as the claim states. -/
theorem c7_google_counterexample :
    parseAction "google search who won the cricket match".data =
      ("google".data, "search who won the cricket match".data) ∧
    (parseAction "google search who won the cricket match".data).2 ≠
      "who won the cricket match".data := by
  decide

/-- C7 (amended): classifying `"google who won the cricket match"`
yields the single segment string
`"google search who won the cricket match"` (tag `google search`,
remainder `"who won the cricket match"` at the classifier level), and
the dispatcher then decomposes it as keyword `"google"` with tail
`"search who won the cricket match"` — the second word of the tag is
absorbed into the dispatched argument. -/
theorem c7_google_segment :
    FirstLayerDMM "google who won the cricket match" =
      ["google search who won the cricket match"] ∧
    parseAction "google search who won the cricket match".data =
      ("google".data, "search who won the cricket match".data) := by
  decide

/-! ## Claim C10 — totality of the reply capabilities -/

/-- C10 (counterexample): `RealtimeSearchEngine` is not total — its
`load_chat_history` has no exception handler, so a failing history load
(for example a corrupt `Data/ChatLog.json` raising `JSONDecodeError`)
propagates out of the function instead of being returned as a fallback
message. -/
theorem c10_realtime_raises_counterexample :
    RealtimeSearchEngine_model (.error "JSONDecodeError") (.ok (some "hi")) =
      .error "JSONDecodeError" := by
  rfl

/-- C10 (amended): `ChatBot` always returns a string (its history load
swallows errors and its backend call is wrapped, yielding the fixed
fallback on failure); `RealtimeSearchEngine` returns its fixed fallback
on a backend failure but propagates a history-load failure as an
exception, which the dispatcher's per-branch `try/except` then converts
to a `Failure` — so a dispatcher `Failure` from these capabilities
raising is reachable, not unreachable. -/
theorem c10_fallback_behaviour :
    (∀ (h : Except String (List Msg)) (a : Except String String),
      ∃ s, ChatBot_model h a = .ok s) ∧
    (∀ (h : Except String (List Msg)) (e : String),
      ChatBot_model h (.error e) = .ok chatBotFallback) ∧
    (∀ (m : List Msg) (e : String),
      RealtimeSearchEngine_model (.ok m) (.error e) = .ok rtFallback) ∧
    (∀ (e : String) (c : Except String (Option String)),
      RealtimeSearchEngine_model (.error e) c = .error e) := by
  refine ⟨?_, ?_, ?_, ?_⟩
  · intro h a
    cases a with
    | error e => exact ⟨chatBotFallback, rfl⟩
    | ok ansRaw => exact ⟨_, rfl⟩
  · intro h e; rfl
  · intro m e; rfl
  · intro e c; rfl

/-! ## Invariants of the comma split in FirstLayerDMM -/

theorem splitComma_ne_nil (l : List Char) : splitComma l ≠ [] := by
  induction l with
  | nil => simp [splitComma]
  | cons c rest ih =>
    cases hc : (c == ',') with
    | true => simp [splitComma, hc]
    | false =>
      simp only [splitComma, hc, Bool.false_eq_true, if_false]
      cases hsp : splitComma rest with
      | nil => simp
      | cons t ts => simp

theorem mem_splitComma_no_comma :
    ∀ {l t : List Char}, t ∈ splitComma l → ',' ∉ t := by
  intro l
  induction l with
  | nil =>
    intro t ht
    simp [splitComma] at ht
    simp [ht]
  | cons c rest ih =>
    intro t ht
    cases hc : (c == ',') with
    | true =>
      simp [splitComma, hc] at ht
      rcases ht with h1 | h2
      · simp [h1]
      · exact ih h2
    | false =>
      simp only [splitComma, hc, Bool.false_eq_true, if_false] at ht
      cases hsp : splitComma rest with
      | nil => exact absurd hsp (splitComma_ne_nil rest)
      | cons u us =>
        rw [hsp] at ht
        simp only [List.mem_cons] at ht
        rcases ht with h1 | h2
        · subst h1
          intro hmem
          rcases List.mem_cons.mp hmem with h3 | h3
          · rw [← h3] at hc; simp at hc
          · exact ih (hsp ▸ List.mem_cons_self u us) h3
        · exact ih (hsp ▸ List.mem_cons_of_mem u h2)

theorem splitComma_no_comma {l : List Char} (h : ',' ∉ l) :
    splitComma l = [l] := by
  induction l with
  | nil => simp [splitComma]
  | cons c rest ih =>
    have hc : (c == ',') = false := by
      simp only [List.mem_cons, not_or] at h
      simp [beq_eq_false_iff_ne]
      intro he; exact h.1 he.symm
    have hrest : ',' ∉ rest := by
      simp only [List.mem_cons, not_or] at h
      exact h.2
    simp only [splitComma, hc, Bool.false_eq_true, if_false, ih hrest]

theorem two_le_splitComma_length :
    ∀ {l : List Char}, ',' ∈ l → 2 ≤ (splitComma l).length := by
  intro l
  induction l with
  | nil => intro h; simp at h
  | cons c rest ih =>
    intro h
    cases hc : (c == ',') with
    | true =>
      simp only [splitComma, hc, if_true]
      have := splitComma_ne_nil rest
      have : 1 ≤ (splitComma rest).length := by
        cases hsp : splitComma rest with
        | nil => exact absurd hsp this
        | cons t ts => simp
      simp only [List.length_cons]
      omega
    | false =>
      have hrest : ',' ∈ rest := by
        rcases List.mem_cons.mp h with h1 | h1
        · rw [← h1] at hc; simp at hc
        · exact h1
      simp only [splitComma, hc, Bool.false_eq_true, if_false]
      cases hsp : splitComma rest with
      | nil => exact absurd hsp (splitComma_ne_nil rest)
      | cons t ts =>
        have := ih hrest
        rw [hsp] at this
        simp only [List.length_cons] at this ⊢
        omega

theorem mem_of_mem_dropWhile {p : Char → Bool} {c : Char} {l : List Char}
    (h : c ∈ l.dropWhile p) : c ∈ l := by
  induction l with
  | nil => simp [List.dropWhile] at h
  | cons a as ih =>
    rw [List.dropWhile_cons] at h
    by_cases hp : p a = true
    · simp only [hp, if_true] at h
      exact List.mem_cons_of_mem a (ih h)
    · simp only [hp, if_false] at h
      exact h

theorem mem_stripChars {c : Char} {l : List Char} (h : c ∈ stripChars l) :
    c ∈ l := by
  unfold stripChars at h
  rw [List.mem_reverse] at h
  have h1 := mem_of_mem_dropWhile h
  rw [List.mem_reverse] at h1
  exact mem_of_mem_dropWhile h1

/-! ## Strip lemmas -/

theorem dropWhile_id_of_head {p : Char → Bool} :
    ∀ {l : List Char}, (∀ c, l.head? = some c → p c = false) →
    l.dropWhile p = l := by
  intro l h
  cases l with
  | nil => rfl
  | cons c rest =>
    rw [List.dropWhile_cons, h c rfl]
    simp

theorem stripChars_eq_self {l : List Char}
    (h1 : ∀ c, l.head? = some c → isSpaceChar c = false)
    (h2 : ∀ c, l.getLast? = some c → isSpaceChar c = false) :
    stripChars l = l := by
  unfold stripChars
  rw [dropWhile_id_of_head h1]
  rw [dropWhile_id_of_head (p := isSpaceChar) ?_]
  · exact List.reverse_reverse l
  · intro c hc
    rw [List.head?_reverse] at hc
    exact h2 c hc

theorem stripChars_cons_space {c : Char} {l : List Char}
    (h : isSpaceChar c = true) : stripChars (c :: l) = stripChars l := by
  unfold stripChars
  rw [List.dropWhile_cons, h]
  simp

/-! ## splitWs lemmas -/

theorem splitWsAux_step {c : Char} (hc : isSpaceChar c = false)
    (cur l : List Char) : splitWsAux cur (c :: l) = splitWsAux (c :: cur) l := by
  simp only [splitWsAux, hc, Bool.false_eq_true, if_false]

/-! ## reSplitSep lemmas -/

theorem reSplitSepAux_nil (f : Nat) (acc : List Char) :
    reSplitSepAux f acc [] = [acc.reverse] := by
  cases f <;> rfl

theorem reSplitSepAux_cons (f : Nat) (acc : List Char) (c : Char)
    (rest : List Char) :
    reSplitSepAux (f + 1) acc (c :: rest) =
      match matchSep (c :: rest) with
      | some n => acc.reverse :: reSplitSepAux f [] (rest.drop (n - 1))
      | none => reSplitSepAux f (c :: acc) rest := rfl

theorem drop_takeWhile_length (p : Char → Bool) :
    ∀ l : List Char, l.drop ((l.takeWhile p).length) = l.dropWhile p := by
  intro l
  induction l with
  | nil => rfl
  | cons c rest ih =>
    rw [List.takeWhile_cons, List.dropWhile_cons]
    cases hp : p c with
    | true => simpa using ih
    | false => simp

theorem reSplitSepAux_comma (f : Nat) (acc l : List Char) :
    reSplitSepAux (f + 1) acc (',' :: l) =
      acc.reverse :: reSplitSepAux f [] (l.dropWhile isSpaceChar) := by
  have h0 : reSplitSepAux (f + 1) acc (',' :: l) =
      acc.reverse :: reSplitSepAux f []
        (l.drop (1 + (l.takeWhile isSpaceChar).length - 1)) := rfl
  rw [h0]
  have h1 : 1 + (l.takeWhile isSpaceChar).length - 1 =
      (l.takeWhile isSpaceChar).length := by omega
  rw [h1, drop_takeWhile_length]

theorem reSplitSepAux_and (f : Nat) (acc l : List Char) :
    reSplitSepAux (f + 1) acc (' ' :: 'a' :: 'n' :: 'd' :: ' ' :: l) =
      acc.reverse :: reSplitSepAux f [] (l.dropWhile isSpaceChar) := by
  have h0 : reSplitSepAux (f + 1) acc (' ' :: 'a' :: 'n' :: 'd' :: ' ' :: l) =
      acc.reverse :: reSplitSepAux f []
        (('a' :: 'n' :: 'd' :: ' ' :: l).drop
          (1 + 3 + ((l.takeWhile isSpaceChar).length + 1) - 1)) := rfl
  rw [h0]
  have h1 : 1 + 3 + ((l.takeWhile isSpaceChar).length + 1) - 1 =
      (l.takeWhile isSpaceChar).length + 4 := by omega
  rw [h1]
  have h2 : ('a' :: 'n' :: 'd' :: ' ' :: l).drop
      ((l.takeWhile isSpaceChar).length + 4) =
      l.drop ((l.takeWhile isSpaceChar).length) := rfl
  rw [h2, drop_takeWhile_length]

/-! ## splitComma through a comma-free prefix -/

theorem splitComma_append_comma {w : List Char} (hw : ',' ∉ w) :
    ∀ l : List Char, splitComma (w ++ ',' :: l) = w :: splitComma l := by
  induction w with
  | nil =>
    intro l
    simp [splitComma]
  | cons c w' ih =>
    intro l
    have hc : (c == ',') = false := by
      rw [beq_eq_false_iff_ne]
      intro he
      exact hw (he ▸ List.mem_cons_self c w')
    have hw' : ',' ∉ w' := fun hm => hw (List.mem_cons_of_mem c hm)
    have hstep : splitComma ((c :: w') ++ ',' :: l) =
        match splitComma (w' ++ ',' :: l) with
        | [] => [[c]]
        | t :: ts => (c :: t) :: ts := by
      rw [List.cons_append]
      simp only [splitComma, hc, Bool.false_eq_true, if_false]
    rw [hstep, ih hw' l]

/-! ## Further character and membership facts for the batch theorem -/

theorem removePunct_append (a b : List Char) :
    removePunct (a ++ b) = removePunct a ++ removePunct b := by
  simp [removePunct]

theorem contains_false {a : List Char} :
    ∀ {l : List (List Char)}, a ∉ l → l.contains a = false := by
  intro l
  induction l with
  | nil => intro h; rfl
  | cons b bs ih =>
    intro h
    simp only [List.mem_cons, not_or] at h
    have hb : (a == b) = false := by
      rw [beq_eq_false_iff_ne]; exact h.1
    show List.elem a (b :: bs) = false
    simp only [List.elem_cons, hb, Bool.false_eq_true, if_false]
    exact ih h.2

/-! ## Claim C5 — multi-item open batches

The side conditions of the C5 theorem say exactly that `X`, `Y`, `Z`
are the items of the comma/`and`-separated list and that no earlier
classifier rule matches: each item is non-empty and trimmed (no leading
or trailing whitespace — the split and the final strip would otherwise
trim it), contains no comma and no internal `\s+and\s+` separator
match, and none of its whole words after normalisation is an exit word
(the only earlier rule an `open …` utterance can match); the middle
item additionally must not end in whitespace followed by `and`, which
would complete a separator together with the ` and ` that follows it.
Items may freely contain upper-case letters, digits, punctuation and
inner spaces. -/

theorem char_toNat_ofNat {n : Nat} (h1 : 97 ≤ n) (h2 : n ≤ 122) :
    (Char.ofNat n).toNat = n := by
  have hv : n.isValidChar := Or.inl (by omega)
  rw [Char.ofNat, dif_pos hv]
  rfl

theorem toLowerCh_not_space {c : Char} (h : isSpaceChar c = false) :
    isSpaceChar (toLowerCh c) = false := by
  rw [toLowerCh]
  by_cases hr : 65 ≤ c.toNat ∧ c.toNat ≤ 90
  · rw [if_pos hr]
    have hn := char_toNat_ofNat (n := c.toNat + 32) (by omega) (by omega)
    simp only [isSpaceChar, decide_eq_false_iff_not] at h ⊢
    rw [hn]
    omega
  · rw [if_neg hr]
    exact h

theorem isPrefixOf_nil_left (l : List Char) :
    List.isPrefixOf ([] : List Char) l = true := by
  cases l <;> rfl

theorem takeWhile_append_of_not_all {p : Char → Bool} :
    ∀ {v : List Char} (b : List Char), (∃ c ∈ v, p c = false) →
      (v ++ b).takeWhile p = v.takeWhile p ∧
      (v ++ b).dropWhile p = v.dropWhile p ++ b := by
  intro v
  induction v with
  | nil => intro b h; simp at h
  | cons c v' ih =>
    intro b h
    cases hc : p c with
    | true =>
      have h' : ∃ d ∈ v', p d = false := by
        rcases h with ⟨d, hd, hpd⟩
        rcases List.mem_cons.mp hd with rfl | hd'
        · rw [hc] at hpd; cases hpd
        · exact ⟨d, hd', hpd⟩
      have hih := ih b h'
      constructor
      · simp [List.takeWhile_cons, hc, hih.1]
      · simp [List.dropWhile_cons, hc, hih.2]
    | false =>
      constructor
      · simp [List.takeWhile_cons, hc]
      · simp [List.dropWhile_cons, hc]

/-- Unfolding of `matchSep` once the leading whitespace run and the
first non-whitespace character (known not to be a comma) are fixed. -/
theorem matchSep_eq_of {l : List Char} {c0 : Char} {dv' : List Char}
    (h : l.dropWhile isSpaceChar = c0 :: dv')
    (hc0 : (c0 == ',') = false) :
    matchSep l =
      if 1 ≤ (l.takeWhile isSpaceChar).length ∧
          List.isPrefixOf "and".data (c0 :: dv') ∧
          isSpaceChar (((c0 :: dv').drop 3).headD 'x') = true then
        some ((l.takeWhile isSpaceChar).length + 3 +
          (((c0 :: dv').drop 3).takeWhile isSpaceChar).length)
      else none := by
  simp only [matchSep, h, List.headD_cons, hc0, Bool.false_eq_true, if_false]

/-- If `w` factors as `p ++ s ++ "and"` with `s` a non-empty whitespace
run, then `endsSpaceAnd w` holds. -/
theorem endsSpaceAnd_of (w p s : List Char) (sc : Char) (st : List Char)
    (hw : w = p ++ (s ++ ('a' :: 'n' :: 'd' :: [])))
    (hs : s.reverse = sc :: st) (hsc : isSpaceChar sc = true) :
    endsSpaceAnd w = true := by
  have hrev : w.reverse = 'd' :: 'n' :: 'a' :: sc :: (st ++ p.reverse) := by
    rw [hw]
    simp [List.reverse_append, hs]
  simp only [endsSpaceAnd, hrev]
  exact hsc

/-- The key soundness fact for walking an item of the separated list:
if the separator regex matches nowhere inside the item `w` (and `w` is
comma-free and does not end in whitespace), then it also matches
nowhere when `w` is followed by a boundary `b` whose first character is
neither `n` nor `d` — such as the `", "` or `" and "` separator that
follows the item in the scanned text — provided that either `w` does
not end in whitespace followed by `and` or the boundary starts with a
non-whitespace character. -/
theorem matchSep_none_append {w : List Char} (b : List Char)
    (hc : ',' ∉ w)
    (hlast : isSpaceChar (w.getLastD 'x') = false)
    (hsep : ∀ v ∈ w.tails, matchSep v = none)
    (hbend : endsSpaceAnd w = false ∨ isSpaceChar (b.headD 'x') = false)
    (hb1 : b.headD 'x' ≠ 'n') (hb2 : b.headD 'x' ≠ 'd') :
    ∀ v ∈ w.tails, v ≠ [] → matchSep (v ++ b) = none := by
  intro v hv hne
  have hvw : v <:+ w := (List.mem_tails _ _).mp hv
  obtain ⟨vf, dv0, hvcat⟩ := (List.eq_nil_or_concat v).resolve_left hne
  rw [List.concat_eq_append] at hvcat
  have hdv0 : isSpaceChar dv0 = false := by
    obtain ⟨p, hp⟩ := hvw
    have hgl : w.getLastD 'x' = dv0 := by
      rw [← hp, hvcat, ← List.append_assoc]
      simp
    rwa [hgl] at hlast
  have hexv : ∃ c ∈ v, isSpaceChar c = false :=
    ⟨dv0, by rw [hvcat]; exact List.mem_append_right _ (List.mem_singleton.mpr rfl),
      hdv0⟩
  obtain ⟨htk, hdw⟩ := takeWhile_append_of_not_all b hexv
  have hdvne : v.dropWhile isSpaceChar ≠ [] := by
    intro hnil
    rw [List.dropWhile_eq_nil_iff] at hnil
    rcases hexv with ⟨c, hcv, hcf⟩
    rw [hnil c hcv] at hcf
    cases hcf
  obtain ⟨c0, dv', hdv⟩ := List.exists_cons_of_ne_nil hdvne
  have hc0w : c0 ∈ w :=
    hvw.subset (mem_of_mem_dropWhile (l := v)
      (by rw [hdv]; exact List.mem_cons_self _ _))
  have hc0 : (c0 == ',') = false := by
    rw [beq_eq_false_iff_ne]
    intro he
    rw [he] at hc0w
    exact hc hc0w
  have hvnone := hsep v hv
  rw [matchSep_eq_of hdv hc0] at hvnone
  have hCv : ¬ (1 ≤ (v.takeWhile isSpaceChar).length ∧
      List.isPrefixOf "and".data (c0 :: dv') ∧
      isSpaceChar (((c0 :: dv').drop 3).headD 'x') = true) := by
    intro hC
    rw [if_pos hC] at hvnone
    cases hvnone
  have hdwb : (v ++ b).dropWhile isSpaceChar = c0 :: (dv' ++ b) := by
    rw [hdw, hdv]
    rfl
  rw [matchSep_eq_of hdwb hc0, htk, if_neg]
  rintro ⟨hk, hpre, hsp⟩
  rcases dv' with _ | ⟨c1, dv''⟩
  · -- the non-whitespace tail of `v` is a single character
    simp only [List.nil_append] at hpre
    cases hb : b with
    | nil =>
      rw [hb] at hpre
      simp [List.isPrefixOf] at hpre
    | cons bh bt =>
      rw [hb] at hpre
      simp only [List.isPrefixOf, Bool.and_eq_true, beq_iff_eq] at hpre
      apply hb1
      rw [hb, List.headD_cons]
      exact hpre.2.1.symm
  · rcases dv'' with _ | ⟨c2, dv₃⟩
    · -- two characters
      simp only [List.cons_append, List.nil_append] at hpre
      cases hb : b with
      | nil =>
        rw [hb] at hpre
        simp [List.isPrefixOf] at hpre
      | cons bh bt =>
        rw [hb] at hpre
        simp only [List.isPrefixOf, isPrefixOf_nil_left, Bool.and_eq_true,
          beq_iff_eq, and_true] at hpre
        apply hb2
        rw [hb, List.headD_cons]
        exact hpre.2.2.symm
    · rcases dv₃ with _ | ⟨c3, dv₄⟩
      · -- exactly `and`: the item would end in whitespace-plus-`and`
        simp only [List.cons_append, List.nil_append] at hpre
        simp only [List.isPrefixOf, isPrefixOf_nil_left, Bool.and_eq_true,
          beq_iff_eq, and_true] at hpre
        obtain ⟨ha, hn, hd⟩ := hpre
        have hend : endsSpaceAnd w = false := by
          rcases hbend with hend | hbsp
          · exact hend
          · have hsp2 : isSpaceChar (b.headD 'x') = true := hsp
            rw [hbsp] at hsp2
            cases hsp2
        obtain ⟨p, hp⟩ := hvw
        have hs_ne : v.takeWhile isSpaceChar ≠ [] := by
          intro h0
          rw [h0] at hk
          simp at hk
        obtain ⟨sf, sc, hscat⟩ :=
          (List.eq_nil_or_concat (v.takeWhile isSpaceChar)).resolve_left hs_ne
        rw [List.concat_eq_append] at hscat
        have hscsp : isSpaceChar sc = true := by
          apply List.mem_takeWhile_imp (l := v)
          rw [hscat]
          exact List.mem_append_right _ (List.mem_singleton.mpr rfl)
        have hvdecomp : v = v.takeWhile isSpaceChar ++ ('a' :: 'n' :: 'd' :: []) := by
          have h0 := List.takeWhile_append_dropWhile (p := isSpaceChar) (l := v)
          rw [hdv, ← ha, ← hn, ← hd] at h0
          exact h0.symm
        have hT : endsSpaceAnd w = true := by
          apply endsSpaceAnd_of w p (v.takeWhile isSpaceChar) sc sf.reverse
          · rw [← hp, ← hvdecomp]
          · rw [hscat]
            simp
          · exact hscsp
        rw [hT] at hend
        cases hend
      · -- at least four characters: the separator would lie inside `v`
        simp only [List.cons_append] at hpre hsp
        simp only [List.isPrefixOf, isPrefixOf_nil_left, Bool.and_eq_true,
          beq_iff_eq, and_true] at hpre
        apply hCv
        refine ⟨hk, ?_, ?_⟩
        · simp only [List.isPrefixOf, isPrefixOf_nil_left, Bool.and_eq_true,
            beq_iff_eq, and_true]
          exact hpre
        · rw [show ((c0 :: c1 :: c2 :: c3 :: dv₄).drop 3) = c3 :: dv₄ from rfl,
            List.headD_cons]
          rw [show ((c0 :: c1 :: c2 :: c3 :: (dv₄ ++ b)).drop 3) = c3 :: (dv₄ ++ b)
              from rfl, List.headD_cons] at hsp
          exact hsp

/-- Walking an item: as long as the separator matches at no position
inside `w ++ r` that starts within `w`, the scanner just accumulates
the characters of `w`. -/
theorem reSplitSepAux_walk_of {w r : List Char}
    (hnone : ∀ v ∈ w.tails, v ≠ [] → matchSep (v ++ r) = none) :
    ∀ (f : Nat) (acc : List Char),
      reSplitSepAux (w.length + f) acc (w ++ r) =
        reSplitSepAux f (w.reverse ++ acc) r := by
  induction w with
  | nil => intro f acc; simp
  | cons c w' ih =>
    intro f acc
    have h0 : matchSep (c :: (w' ++ r)) = none := by
      have := hnone (c :: w') ((List.mem_tails _ _).mpr (List.suffix_refl _))
        (by simp)
      rwa [List.cons_append] at this
    have hstep : w'.length + f + 1 = (c :: w').length + f := by
      simp [List.length_cons]
      omega
    rw [List.cons_append, ← hstep, reSplitSepAux_cons, h0]
    show reSplitSepAux (w'.length + f) (c :: acc) (w' ++ r) = _
    rw [ih (fun v hv hne => hnone v ((List.mem_tails _ _).mpr
      (((List.mem_tails _ _).mp hv).trans (List.suffix_cons c w'))) hne) f (c :: acc)]
    simp [List.append_assoc]

/-- Walking the final item to the end of the scanned text. -/
theorem reSplitSepAux_walk_of_nil {w : List Char}
    (hnone : ∀ v ∈ w.tails, matchSep v = none) (f : Nat) (acc : List Char) :
    reSplitSepAux (w.length + f) acc w = [acc.reverse ++ w] := by
  have h := reSplitSepAux_walk_of (w := w) (r := [])
    (fun v hv _ => by rw [List.append_nil]; exact hnone v hv) f acc
  rw [List.append_nil] at h
  rw [h, reSplitSepAux_nil]
  simp

theorem splitWsAux_cons_space_nil {c : Char} (L : List Char)
    (hc : isSpaceChar c = true) :
    splitWsAux [] (c :: L) = splitWsAux [] L := by
  rw [show splitWsAux [] (c :: L) =
    if isSpaceChar c then splitWsAux [] L else splitWsAux (c :: ([] : List Char)) L
    from rfl, if_pos hc]

theorem splitWsAux_cons_space_cons {c h : Char} (t L : List Char)
    (hc : isSpaceChar c = true) :
    splitWsAux (h :: t) (c :: L) = (h :: t).reverse :: splitWsAux [] L := by
  rw [show splitWsAux (h :: t) (c :: L) =
    if isSpaceChar c then (h :: t).reverse :: splitWsAux [] L
    else splitWsAux (c :: h :: t) L from rfl, if_pos hc]

theorem splitWsAux_append_space :
    ∀ (a cur b : List Char),
      splitWsAux cur (a ++ ' ' :: b) = splitWsAux cur a ++ splitWsAux [] b := by
  intro a
  induction a with
  | nil =>
    intro cur b
    cases cur with
    | nil =>
      rw [List.nil_append, splitWsAux_cons_space_nil _ (by decide)]
      rfl
    | cons h t =>
      rw [List.nil_append, splitWsAux_cons_space_cons _ _ (by decide)]
      rfl
  | cons c a' ih =>
    intro cur b
    by_cases hc : isSpaceChar c = true
    · cases cur with
      | nil =>
        rw [List.cons_append, splitWsAux_cons_space_nil _ hc,
          splitWsAux_cons_space_nil _ hc, ih]
      | cons h t =>
        rw [List.cons_append, splitWsAux_cons_space_cons _ _ hc,
          splitWsAux_cons_space_cons _ _ hc, ih, List.cons_append]
    · have hcf : isSpaceChar c = false := by
        revert hc
        cases isSpaceChar c <;> simp
      rw [List.cons_append, splitWsAux_step hcf, splitWsAux_step hcf, ih]

theorem splitWs_append_space (a b : List Char) :
    splitWs (a ++ ' ' :: b) = splitWs a ++ splitWs b :=
  splitWsAux_append_space a [] b

/-- Character-list core of the C5 theorem: classifying
`"open X, Y and Z"` where `X`, `Y`, `Z` are the non-empty trimmed
comma-free items of the list (no separator match inside them, and `Y`
not ending in whitespace-plus-`and`) and none of their normalised
whole words is an exit word, produces the three segments `open X`,
`open Y`, `open Z` in order. -/
theorem c5_core (x y z : List Char)
    (hX0 : x ≠ []) (hY0 : y ≠ []) (hZ0 : z ≠ [])
    (hXc : ',' ∉ x) (hYc : ',' ∉ y) (hZc : ',' ∉ z)
    (hXh : isSpaceChar (x.headD 'x') = false)
    (hXl : isSpaceChar (x.getLastD 'x') = false)
    (hYh : isSpaceChar (y.headD 'x') = false)
    (hYl : isSpaceChar (y.getLastD 'x') = false)
    (hZh : isSpaceChar (z.headD 'x') = false)
    (hZl : isSpaceChar (z.getLastD 'x') = false)
    (hXs : ∀ v ∈ x.tails, matchSep v = none)
    (hYs : ∀ v ∈ y.tails, matchSep v = none)
    (hZs : ∀ v ∈ z.tails, matchSep v = none)
    (hYa : endsSpaceAnd y = false)
    (hXe : ∀ w ∈ splitWs (removePunct (lowerChars x)), w ∉ EXIT_PHRASES)
    (hYe : ∀ w ∈ splitWs (removePunct (lowerChars y)), w ∉ EXIT_PHRASES)
    (hZe : ∀ w ∈ splitWs (removePunct (lowerChars z)), w ∉ EXIT_PHRASES) :
    firstLayerDMM
      ("open ".data ++ (x ++ (',' :: ' ' ::
        (y ++ (' ' :: 'a' :: 'n' :: 'd' :: ' ' :: z))))) =
      ["open ".data ++ x, "open ".data ++ y, "open ".data ++ z] := by
  obtain ⟨cx, x', hxc⟩ := List.exists_cons_of_ne_nil hX0
  obtain ⟨cy, y', hyc⟩ := List.exists_cons_of_ne_nil hY0
  obtain ⟨cz, z', hzc⟩ := List.exists_cons_of_ne_nil hZ0
  obtain ⟨xf, dxx, hxcat⟩ := (List.eq_nil_or_concat x).resolve_left hX0
  rw [List.concat_eq_append] at hxcat
  obtain ⟨yf, dyy, hycat⟩ := (List.eq_nil_or_concat y).resolve_left hY0
  rw [List.concat_eq_append] at hycat
  obtain ⟨zf, dz, hzcat⟩ := (List.eq_nil_or_concat z).resolve_left hZ0
  rw [List.concat_eq_append] at hzcat
  have hcxsp : isSpaceChar cx = false := by rwa [hxc, List.headD_cons] at hXh
  have hcysp : isSpaceChar cy = false := by rwa [hyc, List.headD_cons] at hYh
  have hczsp : isSpaceChar cz = false := by rwa [hzc, List.headD_cons] at hZh
  have hdxsp : isSpaceChar dxx = false := by
    have h0 := hXl
    rw [hxcat] at h0
    simpa using h0
  have hdysp : isSpaceChar dyy = false := by
    have h0 := hYl
    rw [hycat] at h0
    simpa using h0
  have hdzsp : isSpaceChar dz = false := by
    have h0 := hZl
    rw [hzcat] at h0
    simpa using h0
  -- normalisation: lower-casing distributes over the structure
  have hlowdist : lowerChars ("open ".data ++ (x ++ (',' :: ' ' ::
      (y ++ (' ' :: 'a' :: 'n' :: 'd' :: ' ' :: z))))) =
      "open ".data ++ (lowerChars x ++ (',' :: ' ' ::
        (lowerChars y ++ (' ' :: 'a' :: 'n' :: 'd' :: ' ' :: lowerChars z)))) := by
    simp only [lowerChars, List.map_append, List.map_cons, List.map_nil]
    rfl
  -- strip is the identity on the lowered utterance
  have hlzne : lowerChars z ≠ [] := by
    simp only [lowerChars, ne_eq, List.map_eq_nil_iff]
    exact hZ0
  have hlzlast : (lowerChars z).getLast? = some (toLowerCh dz) := by
    rw [hzcat]
    simp only [lowerChars, List.map_append, List.map_cons, List.map_nil]
    rw [List.getLast?_concat]
  have hstriplow : stripChars (lowerChars ("open ".data ++ (x ++ (',' :: ' ' ::
      (y ++ (' ' :: 'a' :: 'n' :: 'd' :: ' ' :: z)))))) =
      lowerChars ("open ".data ++ (x ++ (',' :: ' ' ::
        (y ++ (' ' :: 'a' :: 'n' :: 'd' :: ' ' :: z))))) := by
    rw [hlowdist]
    apply stripChars_eq_self
    · intro c hc
      rw [show ("open ".data ++ (lowerChars x ++ (',' :: ' ' ::
          (lowerChars y ++ (' ' :: 'a' :: 'n' :: 'd' :: ' ' :: lowerChars z))))).head?
          = some 'o' from rfl] at hc
      injection hc with hc
      subst hc
      decide
    · intro c hc
      rw [show ("open ".data ++ (lowerChars x ++ (',' :: ' ' ::
          (lowerChars y ++ (' ' :: 'a' :: 'n' :: 'd' :: ' ' :: lowerChars z)))) :
            List Char) =
          ("open ".data ++ lowerChars x ++ [','] ++ [' '] ++ lowerChars y ++
            [' ', 'a', 'n', 'd', ' ']) ++ lowerChars z from by
            simp [List.append_assoc],
        List.getLast?_append_of_ne_nil _ hlzne, hlzlast] at hc
      injection hc with hc
      subst hc
      exact toLowerCh_not_space hdzsp
  -- punctuation removal deletes exactly the comma
  have hrpl : removePunct ("open ".data ++ (lowerChars x ++ (',' :: ' ' ::
      (lowerChars y ++ (' ' :: 'a' :: 'n' :: 'd' :: ' ' :: lowerChars z))))) =
      "open ".data ++ (removePunct (lowerChars x) ++ (' ' ::
        (removePunct (lowerChars y) ++ (' ' :: 'a' :: 'n' :: 'd' :: ' ' ::
          removePunct (lowerChars z))))) := by
    rw [show ("open ".data ++ (lowerChars x ++ (',' :: ' ' ::
        (lowerChars y ++ (' ' :: 'a' :: 'n' :: 'd' :: ' ' :: lowerChars z)))) :
          List Char) =
      "open ".data ++ (lowerChars x ++ ([','] ++ ([' '] ++
        (lowerChars y ++ ([' ', 'a', 'n', 'd', ' '] ++ lowerChars z)))))
      from rfl]
    simp only [removePunct_append]
    rw [show removePunct "open ".data = "open ".data from rfl,
      show removePunct [','] = ([] : List Char) from rfl,
      show removePunct [' '] = [' '] from rfl,
      show removePunct [' ', 'a', 'n', 'd', ' '] = [' ', 'a', 'n', 'd', ' ']
        from rfl]
    simp
  have hqnfull : removePunct (stripChars (lowerChars
      ("open ".data ++ (x ++ (',' :: ' ' ::
        (y ++ (' ' :: 'a' :: 'n' :: 'd' :: ' ' :: z))))))) =
      "open ".data ++ (removePunct (lowerChars x) ++ (' ' ::
        (removePunct (lowerChars y) ++ (' ' :: 'a' :: 'n' :: 'd' :: ' ' ::
          removePunct (lowerChars z))))) := by
    rw [hstriplow, hlowdist, hrpl]
  -- the word split of the normalised text
  have hsw : splitWs ("open ".data ++ (removePunct (lowerChars x) ++ (' ' ::
      (removePunct (lowerChars y) ++ (' ' :: 'a' :: 'n' :: 'd' :: ' ' ::
        removePunct (lowerChars z)))))) =
      ["open".data] ++ (splitWs (removePunct (lowerChars x)) ++
        (splitWs (removePunct (lowerChars y)) ++
          (["and".data] ++ splitWs (removePunct (lowerChars z))))) := by
    rw [show ("open ".data ++ (removePunct (lowerChars x) ++ (' ' ::
        (removePunct (lowerChars y) ++ (' ' :: 'a' :: 'n' :: 'd' :: ' ' ::
          removePunct (lowerChars z))))) : List Char) =
      "open".data ++ (' ' :: (removePunct (lowerChars x) ++ (' ' ::
        (removePunct (lowerChars y) ++ (' ' :: ("and".data ++ (' ' ::
          removePunct (lowerChars z)))))))) from rfl]
    rw [splitWs_append_space, splitWs_append_space, splitWs_append_space,
      splitWs_append_space]
    rw [show splitWs "open".data = ["open".data] from by decide,
      show splitWs "and".data = ["and".data] from by decide]
  -- no exit word occurs
  have hexitF : hasExitWord ("open ".data ++ (removePunct (lowerChars x) ++ (' ' ::
      (removePunct (lowerChars y) ++ (' ' :: 'a' :: 'n' :: 'd' :: ' ' ::
        removePunct (lowerChars z)))))) = false := by
    rw [hasExitWord, hsw]
    apply List.any_eq_false.mpr
    intro p hp
    simp only [Bool.not_eq_true]
    apply contains_false
    intro hmem
    simp only [List.mem_append, List.mem_cons, List.not_mem_nil, or_false] at hmem
    rcases hmem with rfl | h | h | rfl | h
    · revert hp; decide
    · exact hXe p h hp
    · exact hYe p h hp
    · revert hp; decide
    · exact hZe p h hp
  -- the rule chain reaches the open branch
  have hclass : classifyQuery ("open ".data ++ (x ++ (',' :: ' ' ::
      (y ++ (' ' :: 'a' :: 'n' :: 'd' :: ' ' :: z))))) =
      multiAction "open".data ("open ".data ++ (x ++ (',' :: ' ' ::
        (y ++ (' ' :: 'a' :: 'n' :: 'd' :: ' ' :: z))))) := by
    rw [classifyQuery, hqnfull, classifyWith]
    rw [hexitF]
    rw [show List.isPrefixOf "google ".data
        ("open ".data ++ (removePunct (lowerChars x) ++ (' ' ::
          (removePunct (lowerChars y) ++ (' ' :: 'a' :: 'n' :: 'd' :: ' ' ::
            removePunct (lowerChars z)))))) = false from rfl,
      show List.isPrefixOf "search google for ".data
        ("open ".data ++ (removePunct (lowerChars x) ++ (' ' ::
          (removePunct (lowerChars y) ++ (' ' :: 'a' :: 'n' :: 'd' :: ' ' ::
            removePunct (lowerChars z)))))) = false from rfl,
      show List.isPrefixOf "youtube ".data
        ("open ".data ++ (removePunct (lowerChars x) ++ (' ' ::
          (removePunct (lowerChars y) ++ (' ' :: 'a' :: 'n' :: 'd' :: ' ' ::
            removePunct (lowerChars z)))))) = false from rfl,
      show List.isPrefixOf "search youtube for ".data
        ("open ".data ++ (removePunct (lowerChars x) ++ (' ' ::
          (removePunct (lowerChars y) ++ (' ' :: 'a' :: 'n' :: 'd' :: ' ' ::
            removePunct (lowerChars z)))))) = false from rfl,
      show List.isPrefixOf "open ".data
        ("open ".data ++ (removePunct (lowerChars x) ++ (' ' ::
          (removePunct (lowerChars y) ++ (' ' :: 'a' :: 'n' :: 'd' :: ' ' ::
            removePunct (lowerChars z)))))) = true from by
          rw [List.isPrefixOf_iff_prefix]
          exact List.prefix_append _ _]
    simp
  -- strip is the identity on the items
  have hsx : stripChars x = x := by
    apply stripChars_eq_self
    · intro c hc
      rw [hxc, List.head?_cons] at hc
      injection hc with hc
      subst hc
      exact hcxsp
    · intro c hc
      rw [hxcat, List.getLast?_concat] at hc
      injection hc with hc
      subst hc
      exact hdxsp
  have hsy : stripChars y = y := by
    apply stripChars_eq_self
    · intro c hc
      rw [hyc, List.head?_cons] at hc
      injection hc with hc
      subst hc
      exact hcysp
    · intro c hc
      rw [hycat, List.getLast?_concat] at hc
      injection hc with hc
      subst hc
      exact hdysp
  have hsz : stripChars z = z := by
    apply stripChars_eq_self
    · intro c hc
      rw [hzc, List.head?_cons] at hc
      injection hc with hc
      subst hc
      exact hczsp
    · intro c hc
      rw [hzcat, List.getLast?_concat] at hc
      injection hc with hc
      subst hc
      exact hdzsp
  -- the item split
  have hstrip_core : stripChars (x ++ (',' :: ' ' ::
      (y ++ (' ' :: 'a' :: 'n' :: 'd' :: ' ' :: z)))) =
      x ++ (',' :: ' ' :: (y ++ (' ' :: 'a' :: 'n' :: 'd' :: ' ' :: z))) := by
    apply stripChars_eq_self
    · intro c hc
      rw [hxc, List.cons_append, List.head?_cons] at hc
      injection hc with hc
      subst hc
      exact hcxsp
    · intro c hc
      rw [show (x ++ (',' :: ' ' ::
          (y ++ (' ' :: 'a' :: 'n' :: 'd' :: ' ' :: z))) : List Char) =
        (x ++ [','] ++ [' '] ++ y ++ [' ', 'a', 'n', 'd', ' ']) ++ z
        from by simp,
        List.getLast?_append_of_ne_nil _ hZ0, hzcat,
        List.getLast?_concat] at hc
      injection hc with hc
      subst hc
      exact hdzsp
  have hdrop_strip : stripChars (("open ".data ++ (x ++ (',' :: ' ' ::
      (y ++ (' ' :: 'a' :: 'n' :: 'd' :: ' ' :: z))))).drop 4) =
      x ++ (',' :: ' ' :: (y ++ (' ' :: 'a' :: 'n' :: 'd' :: ' ' :: z))) := by
    rw [show (("open ".data ++ (x ++ (',' :: ' ' ::
        (y ++ (' ' :: 'a' :: 'n' :: 'd' :: ' ' :: z))))).drop 4 : List Char) =
      ' ' :: (x ++ (',' :: ' ' ::
        (y ++ (' ' :: 'a' :: 'n' :: 'd' :: ' ' :: z)))) from rfl]
    rw [stripChars_cons_space (by decide)]
    exact hstrip_core
  have hnoneX : ∀ v ∈ x.tails, v ≠ [] →
      matchSep (v ++ (',' :: ' ' ::
        (y ++ (' ' :: 'a' :: 'n' :: 'd' :: ' ' :: z)))) = none :=
    matchSep_none_append _ hXc hXl hXs
      (Or.inr (by rw [List.headD_cons]; decide))
      (by rw [List.headD_cons]; decide) (by rw [List.headD_cons]; decide)
  have hnoneY : ∀ v ∈ y.tails, v ≠ [] →
      matchSep (v ++ (' ' :: 'a' :: 'n' :: 'd' :: ' ' :: z)) = none :=
    matchSep_none_append _ hYc hYl hYs (Or.inl hYa)
      (by rw [List.headD_cons]; decide) (by rw [List.headD_cons]; decide)
  have hdwy : List.dropWhile isSpaceChar (' ' ::
      (y ++ (' ' :: 'a' :: 'n' :: 'd' :: ' ' :: z))) =
      y ++ (' ' :: 'a' :: 'n' :: 'd' :: ' ' :: z) := by
    rw [List.dropWhile_cons, if_pos (show isSpaceChar ' ' = true by decide)]
    rw [hyc, List.cons_append, List.dropWhile_cons,
      if_neg (by simp [hcysp])]
  have hdwz : List.dropWhile isSpaceChar z = z := by
    rw [hzc, List.dropWhile_cons, if_neg (by simp [hczsp])]
  have hitems : reSplitSep (x ++ (',' :: ' ' ::
      (y ++ (' ' :: 'a' :: 'n' :: 'd' :: ' ' :: z)))) = [x, y, z] := by
    rw [reSplitSep]
    rw [show (x ++ (',' :: ' ' ::
        (y ++ (' ' :: 'a' :: 'n' :: 'd' :: ' ' :: z)))).length =
      x.length + ((y.length + ((z.length + 5) + 1)) + 1) from by
        simp [List.length_append]
        omega]
    rw [reSplitSepAux_walk_of hnoneX]
    rw [reSplitSepAux_comma, hdwy]
    rw [reSplitSepAux_walk_of hnoneY]
    rw [reSplitSepAux_and, hdwz]
    rw [reSplitSepAux_walk_of_nil hZs 5]
    simp
  -- the produced classifier string
  have hxE : x.isEmpty = false := by rw [hxc]; rfl
  have hyE : y.isEmpty = false := by rw [hyc]; rfl
  have hzE : z.isEmpty = false := by rw [hzc]; rfl
  have hmulti : multiAction "open".data ("open ".data ++ (x ++ (',' :: ' ' ::
      (y ++ (' ' :: 'a' :: 'n' :: 'd' :: ' ' :: z))))) =
      ("open".data ++ ' ' :: x) ++ ',' :: ' ' ::
        (("open".data ++ ' ' :: y) ++ ',' :: ' ' ::
          ("open".data ++ ' ' :: z)) := by
    simp only [multiAction]
    rw [show ("open".data : List Char).length = 4 from rfl]
    rw [hdrop_strip, hitems]
    simp only [List.filter_cons, List.filter_nil, hsx, hsy, hsz, hxE, hyE,
      hzE, Bool.not_false, if_true, List.map_cons, List.map_nil,
      joinCommaSpace]
  -- splitting the classifier string on commas
  have hnc_ox : ',' ∉ ("open".data ++ ' ' :: x : List Char) := by
    intro hmem
    simp only [List.mem_append, List.mem_cons] at hmem
    rcases hmem with h | h | h
    · revert h; decide
    · exact absurd h (by decide)
    · exact hXc h
  have hnc_oy : ',' ∉ (' ' :: ("open".data ++ ' ' :: y) : List Char) := by
    intro hmem
    simp only [List.mem_cons, List.mem_append] at hmem
    rcases hmem with h | h | h | h
    · exact absurd h (by decide)
    · revert h; decide
    · exact absurd h (by decide)
    · exact hYc h
  have hnc_oz : ',' ∉ (' ' :: ("open".data ++ ' ' :: z) : List Char) := by
    intro hmem
    simp only [List.mem_cons, List.mem_append] at hmem
    rcases hmem with h | h | h | h
    · exact absurd h (by decide)
    · revert h; decide
    · exact absurd h (by decide)
    · exact hZc h
  have hsplit : splitComma (("open".data ++ ' ' :: x) ++ ',' :: ' ' ::
      (("open".data ++ ' ' :: y) ++ ',' :: ' ' ::
        ("open".data ++ ' ' :: z))) =
      [("open".data ++ ' ' :: x), ' ' :: ("open".data ++ ' ' :: y),
        ' ' :: ("open".data ++ ' ' :: z)] := by
    rw [splitComma_append_comma hnc_ox]
    rw [show (' ' :: (("open".data ++ ' ' :: y) ++ ',' :: ' ' ::
        ("open".data ++ ' ' :: z)) : List Char) =
      (' ' :: ("open".data ++ ' ' :: y)) ++ ',' ::
        (' ' :: ("open".data ++ ' ' :: z)) from by simp]
    rw [splitComma_append_comma hnc_oy]
    rw [splitComma_no_comma hnc_oz]
  -- final strip of the three segments
  have hs1 : stripChars ("open".data ++ ' ' :: x) =
      "open".data ++ ' ' :: x := by
    apply stripChars_eq_self
    · intro c hc
      simp only [List.cons_append, List.head?_cons, Option.some.injEq] at hc
      subst hc
      decide
    · intro c hc
      rw [show ("open".data ++ ' ' :: x : List Char) =
          ("open".data ++ [' ']) ++ x from by simp,
        List.getLast?_append_of_ne_nil _ hX0, hxcat,
        List.getLast?_concat] at hc
      injection hc with hc
      subst hc
      exact hdxsp
  have hs2 : stripChars (' ' :: ("open".data ++ ' ' :: y)) =
      "open".data ++ ' ' :: y := by
    rw [stripChars_cons_space (by decide)]
    apply stripChars_eq_self
    · intro c hc
      simp only [List.cons_append, List.head?_cons, Option.some.injEq] at hc
      subst hc
      decide
    · intro c hc
      rw [show ("open".data ++ ' ' :: y : List Char) =
          ("open".data ++ [' ']) ++ y from by simp,
        List.getLast?_append_of_ne_nil _ hY0, hycat,
        List.getLast?_concat] at hc
      injection hc with hc
      subst hc
      exact hdysp
  have hs3 : stripChars (' ' :: ("open".data ++ ' ' :: z)) =
      "open".data ++ ' ' :: z := by
    rw [stripChars_cons_space (by decide)]
    apply stripChars_eq_self
    · intro c hc
      simp only [List.cons_append, List.head?_cons, Option.some.injEq] at hc
      subst hc
      decide
    · intro c hc
      rw [show ("open".data ++ ' ' :: z : List Char) =
          ("open".data ++ [' ']) ++ z from by simp,
        List.getLast?_append_of_ne_nil _ hZ0, hzcat,
        List.getLast?_concat] at hc
      injection hc with hc
      subst hc
      exact hdzsp
  rw [firstLayerDMM, hclass, hmulti, hsplit]
  simp only [List.map_cons, List.map_nil, hs1, hs2, hs3]
  rfl

/-- C5: for every utterance of the form `"open X, Y and Z"` whose items
`X`, `Y`, `Z` are non-empty, trimmed, comma-free, contain no internal
`\s+and\s+` separator match, and contain no exit word as a normalised
whole word (so no earlier rule matches), with `Y` moreover not ending
in whitespace followed by `and`, the classifier returns exactly three
segments tagged `Open` with arguments `X`, `Y`, `Z` in that order.
Items may contain upper-case letters, digits, punctuation and inner
spaces. -/
theorem c5_open_batch (X Y Z : String)
    (hX0 : X.data ≠ []) (hY0 : Y.data ≠ []) (hZ0 : Z.data ≠ [])
    (hXc : ',' ∉ X.data) (hYc : ',' ∉ Y.data) (hZc : ',' ∉ Z.data)
    (hXh : isSpaceChar (X.data.headD 'x') = false)
    (hXl : isSpaceChar (X.data.getLastD 'x') = false)
    (hYh : isSpaceChar (Y.data.headD 'x') = false)
    (hYl : isSpaceChar (Y.data.getLastD 'x') = false)
    (hZh : isSpaceChar (Z.data.headD 'x') = false)
    (hZl : isSpaceChar (Z.data.getLastD 'x') = false)
    (hXs : ∀ v ∈ X.data.tails, matchSep v = none)
    (hYs : ∀ v ∈ Y.data.tails, matchSep v = none)
    (hZs : ∀ v ∈ Z.data.tails, matchSep v = none)
    (hYa : endsSpaceAnd Y.data = false)
    (hXe : ∀ w ∈ splitWs (removePunct (lowerChars X.data)), w ∉ EXIT_PHRASES)
    (hYe : ∀ w ∈ splitWs (removePunct (lowerChars Y.data)), w ∉ EXIT_PHRASES)
    (hZe : ∀ w ∈ splitWs (removePunct (lowerChars Z.data)), w ∉ EXIT_PHRASES) :
    FirstLayerDMM ("open " ++ X ++ ", " ++ Y ++ " and " ++ Z) =
      ["open " ++ X, "open " ++ Y, "open " ++ Z] := by
  obtain ⟨x⟩ := X
  obtain ⟨y⟩ := Y
  obtain ⟨z⟩ := Z
  have hdata : (("open " ++ String.mk x ++ ", " ++ String.mk y ++ " and " ++
      String.mk z : String)).data =
      "open ".data ++ (x ++ (',' :: ' ' ::
        (y ++ (' ' :: 'a' :: 'n' :: 'd' :: ' ' :: z)))) := by
    show (((("open ".data ++ x) ++ [',', ' ']) ++ y) ++
        [' ', 'a', 'n', 'd', ' ']) ++ z = _
    simp [List.append_assoc]
  rw [FirstLayerDMM, hdata,
    c5_core x y z hX0 hY0 hZ0 hXc hYc hZc hXh hXl hYh hYl hZh hZl
      hXs hYs hZs hYa hXe hYe hZe]
  rfl

/-- C5 witness: the open-batch theorem at the concrete utterance
`"open visual studio code, Chrome 95 and my notepad"`, whose items are
multi-word, capitalised and digit-containing. -/
theorem c5_open_batch_witness :
    FirstLayerDMM "open visual studio code, Chrome 95 and my notepad" =
      ["open visual studio code", "open Chrome 95", "open my notepad"] := by
  have h := c5_open_batch "visual studio code" "Chrome 95" "my notepad"
    (by decide) (by decide) (by decide) (by decide) (by decide) (by decide)
    (by decide) (by decide) (by decide) (by decide) (by decide) (by decide)
    (by decide) (by decide) (by decide) (by decide) (by decide) (by decide)
    (by decide)
  simpa using h

/-! ## Claim C9 — comma-free elements of FirstLayerDMM -/

/-- C9: every element of the list returned by `FirstLayerDMM` is free of
comma characters (the classifier's single result string is split on
commas before being returned); consequently, when the classifier result
embeds a comma (e.g. the general fallback on a comma-containing
utterance), `FirstLayerDMM` returns at least two list elements — and
concretely `"hello, world"` becomes `["general hello", "world"]`, whose
second element begins with no intent tag. -/
theorem c9_no_comma_invariant :
    (∀ (s e : String), e ∈ FirstLayerDMM s → ',' ∉ e.data) ∧
    (∀ s : String, ',' ∈ classifyQuery s.data →
      2 ≤ (FirstLayerDMM s).length) ∧
    (FirstLayerDMM "hello, world" = ["general hello", "world"] ∧
     CATEGORIES.all (fun t => !(List.isPrefixOf t "world".data)) = true) := by
  refine ⟨?_, ?_, by decide, by decide⟩
  · intro s e he
    simp only [FirstLayerDMM, firstLayerDMM, List.map_map, List.mem_map] at he
    obtain ⟨t, ht, rfl⟩ := he
    intro hmem
    have h1 : ',' ∈ stripChars t := hmem
    exact mem_splitComma_no_comma ht (mem_stripChars h1)
  · intro s h
    simp only [FirstLayerDMM, firstLayerDMM, List.map_map, List.length_map]
    exact two_le_splitComma_length h

/-- C9 witness: the invariant applied at concrete inputs. -/
theorem c9_no_comma_invariant_witness :
    ',' ∉ ("general zzy" : String).data ∧
    2 ≤ (FirstLayerDMM "zzy, qqy").length := by
  constructor
  · exact c9_no_comma_invariant.1 "zzy, qqy" "general zzy" (by decide)
  · exact c9_no_comma_invariant.2.1 "zzy, qqy" (by decide)

/-! ## Claim C3 — totality of the classifier -/

/-- C3 (counterexample): the comma-containing utterance `"zzz, qqq"`
matches no rule (the classifier returns the general fallback carrying
the whole utterance), yet `FirstLayerDMM` does not return a single
general segment carrying the whole utterance: the comma split breaks the
fallback into two elements. -/
theorem c3_fallback_comma_counterexample :
    classifyQuery ("zzz, qqq" : String).data = ("general zzz, qqq" : String).data ∧
    FirstLayerDMM "zzz, qqq" = ["general zzz", "qqq"] ∧
    FirstLayerDMM "zzz, qqq" ≠ ["general zzz, qqq"] := by
  refine ⟨by decide, by decide, by decide⟩

/-- C3 (amended): the classifier is total — for every string input
(including the empty string) `FirstLayerDMM` returns a non-empty list;
and when no other rule matches (the classifier returns the general
fallback) the result is the single general-conversation segment carrying
the whole utterance, provided the utterance contains no comma and the
fallback string is not changed by the final strip. -/
theorem c3_totality_and_fallback :
    (∀ s : String, FirstLayerDMM s ≠ []) ∧
    (∀ s : String,
      classifyQuery s.data = "general ".data ++ s.data →
      ',' ∉ s.data →
      stripChars ("general ".data ++ s.data) = "general ".data ++ s.data →
      FirstLayerDMM s = ["general " ++ s]) := by
  constructor
  · intro s
    simp only [FirstLayerDMM, firstLayerDMM, List.map_map, ne_eq,
      List.map_eq_nil_iff]
    exact splitComma_ne_nil _
  · intro s hcl hnc hst
    obtain ⟨l⟩ := s
    simp only [FirstLayerDMM, firstLayerDMM] at *
    rw [hcl]
    have hnc2 : ',' ∉ "general ".data ++ l := by
      intro hmem
      rcases List.mem_append.mp hmem with h1 | h1
      · revert h1; decide
      · exact hnc h1
    rw [splitComma_no_comma hnc2]
    simp only [List.map_cons, List.map_nil, hst]
    rfl

/-- C3 witness: totality and the single-segment fallback at concrete
inputs. -/
theorem c3_totality_and_fallback_witness :
    FirstLayerDMM "zzy qqy" ≠ [] ∧
    FirstLayerDMM "zzy qqy" = ["general zzy qqy"] := by
  constructor
  · exact c3_totality_and_fallback.1 "zzy qqy"
  · exact c3_totality_and_fallback.2 "zzy qqy" (by decide) (by decide) (by decide)

/-! ## Claim C4 — exit vocabulary wins outright -/

/-- C4: for every utterance containing an exit-vocabulary token
(`bye`, `exit`, `quit`, `goodbye`, `end`) as a whole word after
normalisation (lower-case, strip, punctuation removal), the classifier
returns exactly the single segment `"exit"` (tag `Exit`, empty
argument), discarding everything else. -/
theorem c4_exit_whole_word (s : String)
    (h : hasExitWord (removePunct (stripChars (lowerChars s.data))) = true) :
    FirstLayerDMM s = ["exit"] := by
  simp only [FirstLayerDMM, firstLayerDMM, classifyQuery, classifyWith, h,
    if_true]
  decide

/-- C4 witness: the exit rule at a concrete punctuated input. -/
theorem c4_exit_whole_word_witness :
    hasExitWord (removePunct (stripChars (lowerChars
      ("ok, Goodbye now!" : String).data))) = true ∧
    FirstLayerDMM "ok, Goodbye now!" = ["exit"] := by
  exact ⟨by decide, c4_exit_whole_word "ok, Goodbye now!" (by decide)⟩

example : FirstLayerDMM "exit" = ["exit"] := by decide
example : FirstLayerDMM "Goodbye!" = ["exit"] := by decide
example : FirstLayerDMM "google who won the cricket match" =
    ["google search who won the cricket match"] := by decide
example : FirstLayerDMM "remind me at 5pm call mom" =
    ["reminder 5pm call mom"] := by decide
example : FirstLayerDMM "open chrome, spotify and notepad" =
    ["open chrome", "open spotify", "open notepad"] := by decide
example : FirstLayerDMM "zzz, qqq" = ["general zzz", "qqq"] := by decide
example : FirstLayerDMM "" = ["general"] := by decide
example : FirstLayerDMM "what is love" = ["general what is love"] := by decide
example : FirstLayerDMM "who is Elon Musk" = ["realtime who is Elon Musk"] := by decide
example : FirstLayerDMM "what time is it" = ["general what time is it"] := by decide

end Krakken
